import Mathlib

/-!
Verification development for `scripts/sync-reqs-to-braingrid.py`
(bidirectional sync between local REQ documents and the Braingrid service).

Python strings are modelled as lists of characters (`PyStr`), and the
Python string operations used by the script are given faithful executable
counterparts.  The remote service, reachable only through the `braingrid`
CLI, is modelled as an abstract environment `Env W` over a remote-state
type `W`; all functions of the script that invoke the CLI are embedded as
explicit state-passing functions over `W`.
-/

/-- Python strings, modelled as lists of characters. -/
abbrev PyStr := List Char

/-- Embed a Lean string literal as a `PyStr`. -/
def pys (s : String) : PyStr := s.toList

/-- The characters Python's `str.strip()` removes (`str.isspace` on ASCII). -/
def pyIsSpace (c : Char) : Bool :=
  c = ' ' || c = '\t' || c = '\n' || c = '\r' || c = '\x0b' || c = '\x0c'

/-- Python `str.lstrip()`. -/
def pyLStripWs (s : PyStr) : PyStr := s.dropWhile pyIsSpace

/-- Python `str.rstrip()`. -/
def pyRStripWs (s : PyStr) : PyStr := (s.reverse.dropWhile pyIsSpace).reverse

/-- Python `str.strip()`. -/
def pyStrip (s : PyStr) : PyStr := pyRStripWs (pyLStripWs s)

/-- Python `str.lower()` (ASCII). -/
def pyLower (s : PyStr) : PyStr := s.map Char.toLower

/-- Python substring containment: `sub in hay`. -/
def pyHasSub (hay sub : PyStr) : Bool :=
  match hay with
  | [] => sub.isEmpty
  | c :: t => sub.isPrefixOf (c :: t) || pyHasSub t sub

/-- Python `str.split(sep)` for a one-character separator. -/
def pySplitCh (sep : Char) : PyStr → List PyStr
  | [] => [[]]
  | c :: rest =>
    match pySplitCh sep rest with
    | [] => [[]]
    | g :: gs => if c = sep then [] :: g :: gs else (c :: g) :: gs

/-- Python `sep.join(groups)` for a one-character separator. -/
def pyJoinCh (sep : Char) : List PyStr → PyStr
  | [] => []
  | [g] => g
  | g :: g2 :: gs => g ++ sep :: pyJoinCh sep (g2 :: gs)

/-- Python `str.split(sep, 1)` for a one-character separator, as the pair
(text before the first `sep`, text after it). -/
def pySplitFirst (sep : Char) : PyStr → PyStr × PyStr
  | [] => ([], [])
  | c :: rest =>
    if c = sep then ([], rest)
    else
      let p := pySplitFirst sep rest
      (c :: p.1, p.2)

/-- Python `str.replace(pat, "")`: remove every occurrence of `pat`,
scanning left to right.  The fuel argument bounds the number of scanning
steps; every step consumes at least one character, so the string's length
is always enough fuel. -/
def pyRemoveAllF (pat : PyStr) : Nat → PyStr → PyStr
  | 0, s => s
  | _ + 1, [] => []
  | fuel + 1, c :: rest =>
    if ¬ pat.isEmpty ∧ pat.isPrefixOf (c :: rest) then
      pyRemoveAllF pat fuel ((c :: rest).drop pat.length)
    else
      c :: pyRemoveAllF pat fuel rest

/-- Python `str.replace(pat, "")`. -/
def pyRemoveAll (pat s : PyStr) : PyStr := pyRemoveAllF pat s.length s

/-- Python `str.lstrip("0")`. -/
def pyLStripZeros (s : PyStr) : PyStr := s.dropWhile (· = '0')

/-- Python `str.strip(c)` for a single character `c`. -/
def pyStripCh (c : Char) (s : PyStr) : PyStr :=
  ((s.dropWhile (· = c)).reverse.dropWhile (· = c)).reverse

/-- Python `str.zfill(n)`. -/
def pyZfill (n : Nat) (s : PyStr) : PyStr :=
  match s with
  | [] => List.replicate n '0'
  | c :: rest =>
    if c = '+' || c = '-' then c :: (List.replicate (n - 1 - rest.length) '0' ++ rest)
    else List.replicate (n - (c :: rest).length) '0' ++ (c :: rest)

/-- The double-quote character. -/
def dquote : Char := Char.ofNat 34

/-- The single-quote character. -/
def squote : Char := Char.ofNat 39

/-- Does the string start with the character `c`? -/
def startsWithCh (c : Char) : PyStr → Bool
  | [] => false
  | a :: _ => a = c

/-- Does the string end with the character `c`? -/
def endsWithCh (c : Char) (s : PyStr) : Bool := startsWithCh c s.reverse

/-- The script's quote removal: strip one pair of matching single or double
quotes (`value[1:-1]` under the matching `startswith`/`endswith` checks). -/
def pyUnquote (v : PyStr) : PyStr :=
  if (startsWithCh dquote v && endsWithCh dquote v) ||
     (startsWithCh squote v && endsWithCh squote v) then
    (v.drop 1).dropLast
  else v

/-- A parsed metadata value: a Python string or a list of strings. -/
inductive YamlVal where
  | str (s : PyStr)
  | list (items : List PyStr)
  deriving DecidableEq, Repr

/-- Python `dict.get` over the sequence of assignments performed by the
parser: the latest assignment to a key wins. -/
def dictGet {α : Type} (m : List (PyStr × α)) (k : PyStr) : Option α :=
  match m with
  | [] => none
  | (k', v) :: rest =>
    match dictGet rest k with
    | some v' => some v'
    | none => if k' = k then some v else none

/-- Python truthiness of a metadata value (empty string and empty list are
falsy). -/
def pyTruthyV : YamlVal → Bool
  | .str s => !s.isEmpty
  | .list l => !l.isEmpty

/-- Is the metadata value a plain string (a hashable value, in Python
terms)? -/
def isStrV : YamlVal → Bool
  | .str _ => true
  | .list _ => false

/-- Elements of an inline bracketed list: split on commas, keep the
non-blank pieces, strip whitespace and then all leading/trailing quote
characters from each. -/
def inlineItems (inner : PyStr) : List PyStr :=
  (pySplitCh ',' inner).filterMap fun v =>
    let t := pyStrip v
    if t.isEmpty then none else some (pyStripCh squote (pyStripCh dquote t))

/-- Is the next line a block-list item (its stripped form starts with `-`)? -/
def nextIsItem : List PyStr → Bool
  | r1 :: _ => startsWithCh '-' (pyStrip r1)
  | [] => false

/-- Consume the contiguous run of block-list item lines, returning the
parsed items and the remaining lines. -/
def takeItems : List PyStr → List PyStr × List PyStr
  | [] => ([], [])
  | l :: ls =>
    if startsWithCh '-' (pyStrip l) then
      let r := takeItems ls
      (pyUnquote (pyStrip ((pyStrip l).drop 1)) :: r.1, r.2)
    else ([], l :: ls)

/-- The front-matter scanning loop of `parse_yaml_front_matter` (the
`while i < len(front_matter_lines)` loop), producing the sequence of key
assignments in order.  The fuel argument bounds the number of loop
iterations; every iteration consumes at least one line, so the number of
lines is always enough fuel. -/
def parseEntriesF : Nat → List PyStr → List (PyStr × YamlVal)
  | 0, _ => []
  | _ + 1, [] => []
  | fuel + 1, l0 :: rest =>
    if (pyRStripWs l0).isEmpty || startsWithCh '#' (pyRStripWs l0) then
      parseEntriesF fuel rest
    else if (pyRStripWs l0).contains ':' then
      if startsWithCh '[' (pyUnquote (pyStrip (pySplitFirst ':' (pyRStripWs l0)).2)) &&
         endsWithCh ']' (pyUnquote (pyStrip (pySplitFirst ':' (pyRStripWs l0)).2)) then
        (pyStrip (pySplitFirst ':' (pyRStripWs l0)).1,
         .list (inlineItems (pyStrip
           (((pyUnquote (pyStrip (pySplitFirst ':' (pyRStripWs l0)).2)).drop 1).dropLast)))) ::
          parseEntriesF fuel rest
      else if (pyUnquote (pyStrip (pySplitFirst ':' (pyRStripWs l0)).2)).isEmpty &&
          nextIsItem rest then
        (pyStrip (pySplitFirst ':' (pyRStripWs l0)).1, .list (takeItems rest).1) ::
          parseEntriesF fuel (takeItems rest).2
      else
        (pyStrip (pySplitFirst ':' (pyRStripWs l0)).1,
         .str (pyUnquote (pyStrip (pySplitFirst ':' (pyRStripWs l0)).2))) ::
          parseEntriesF fuel rest
    else parseEntriesF fuel rest

/-- The front-matter scanning loop, run to completion. -/
def parseEntries (ls : List PyStr) : List (PyStr × YamlVal) := parseEntriesF ls.length ls

/-- Search for the closing `---` line: index (into the full line list) of the
first line at position ≥ 1 whose stripped form is `---`. -/
def findCloseAux : Nat → List PyStr → Option Nat
  | _, [] => none
  | i, l :: ls => if pyStrip l = pys "---" then some i else findCloseAux (i + 1) ls

/-- `parse_yaml_front_matter` from the script: returns the metadata
assignments and the markdown body after the header. -/
def parse_yaml_front_matter (content : PyStr) : List (PyStr × YamlVal) × PyStr :=
  if ¬ (pys "---").isPrefixOf content then ([], content)
  else
    let lines := pySplitCh '\n' content
    if lines.length < 2 then ([], content)
    else
      match findCloseAux 1 lines.tail with
      | none => ([], content)
      | some endIdx =>
        (parseEntries ((lines.drop 1).take (endIdx - 1)),
         pyJoinCh '\n' (lines.drop (endIdx + 1)))

/-- `normalize_name`'s fixed trailing qualifier suffixes, in source order. -/
def NAME_SUFFIXES : List PyStr :=
  [pys " sys", pys " system", pys " layer", pys " improvements"]

/-- One pass of the suffix-stripping loop body. -/
def stripOneSuffix (n : PyStr) (suf : PyStr) : PyStr :=
  if suf.isSuffixOf n then n.take (n.length - suf.length) else n

/-- `normalize_name` from the script. -/
def normalize_name (name : PyStr) : PyStr :=
  let n1 := if name.contains ':' then (pySplitFirst ':' name).2 else name
  let n2 := pyStrip (pyLower n1)
  NAME_SUFFIXES.foldl stripOneSuffix n2

/-- `STATUS_MAP` (local → Braingrid). -/
def STATUS_MAP : List (PyStr × PyStr) :=
  [(pys "Not Started", pys "PLANNED"), (pys "In Progress", pys "IN_PROGRESS"),
   (pys "Completed", pys "COMPLETED"), (pys "Review", pys "REVIEW")]

/-- `REVERSE_STATUS_MAP` (Braingrid → local). -/
def REVERSE_STATUS_MAP : List (PyStr × PyStr) :=
  [(pys "PLANNED", pys "Not Started"), (pys "IN_PROGRESS", pys "In Progress"),
   (pys "COMPLETED", pys "Completed"), (pys "REVIEW", pys "Completed")]

/-- `map_status` from the script. -/
def map_status (local_status : PyStr) : PyStr :=
  (dictGet STATUS_MAP local_status).getD (pys "PLANNED")

/-- `reverse_map_status` from the script. -/
def reverse_map_status (braingrid_status : PyStr) : PyStr :=
  (dictGet REVERSE_STATUS_MAP braingrid_status).getD (pys "Not Started")

/-- A remote record as produced by `list_braingrid_requirements`. -/
structure RemoteReq where
  short_id : PyStr
  name : PyStr
  status : PyStr
  deriving DecidableEq, Repr

/-- The dictionary returned by `find_existing_req`: internal id (absent when
the detail view carries no `ID:` line), short identifier, display name and
status. -/
structure FoundReq where
  id : Option PyStr
  short_id : PyStr
  name : PyStr
  status : PyStr
  deriving DecidableEq, Repr

/-- The remote service behind the `braingrid` CLI, over a remote-state type
`W`.  `runList`, `runCreate` and `runUpdate` are the list / create /
update-status commands (create and update may change the remote state);
`fullName` abstracts `get_full_requirement_name` and `details` abstracts
`get_requirement_details` (read-only show-based lookups; `details` returns
`none` when the show command fails, otherwise the record's optional
internal id). -/
structure Env (W : Type) where
  runList : W → List RemoteReq
  runCreate : W → PyStr → PyStr → Bool × W
  runUpdate : W → PyStr → PyStr → Bool × W
  fullName : W → PyStr → Option PyStr
  details : W → PyStr → Option (Option PyStr)

/-- The name actually compared by `find_existing_req`: the full name fetched
from the detail view when that lookup returns a truthy value, otherwise the
(possibly truncated) listing name. -/
def effName {W : Type} (env : Env W) (w : W) (r : RemoteReq) : PyStr :=
  match env.fullName w r.short_id with
  | some fn => if fn.isEmpty then r.name else fn
  | none => r.name

/-- The name-strategy test of `find_existing_req`: normalized names are
equal, or one contains the other. -/
def nameMatches {W : Type} (env : Env W) (w : W) (tnorm : PyStr) (r : RemoteReq) : Bool :=
  let nn := normalize_name (effName env w r)
  nn == tnorm || pyHasSub nn tnorm || pyHasSub tnorm nn

/-- The candidate short-identifier strings built by `find_existing_req`
from the declared identifier hint. -/
def mkPatterns (req_id : PyStr) : List PyStr :=
  let req_num := if req_id.isEmpty then [] else pyLStripZeros (pyRemoveAll (pys "REQ-") req_id)
  if req_num.isEmpty then []
  else [pys "REQ-" ++ req_num, pys "REQ-" ++ pyZfill 3 (pyRemoveAll (pys "REQ-") req_id), req_id]

/-- The first loop of `find_existing_req`: name-based matching. -/
def findByName {W : Type} (env : Env W) (w : W) (tnorm : PyStr) :
    List RemoteReq → Option FoundReq
  | [] => none
  | r :: rest =>
    if nameMatches env w tnorm r then
      let nm := effName env w r
      match env.details w r.short_id with
      | some oid => some ⟨oid, r.short_id, nm, r.status⟩
      | none => some ⟨some r.short_id, r.short_id, nm, r.status⟩
    else findByName env w tnorm rest

/-- The second loop of `find_existing_req`: identifier-pattern matching.
In the fallback branch (failed detail lookup) the listing name is kept
unchanged. -/
def findByPattern {W : Type} (env : Env W) (w : W) (patterns : List PyStr) :
    List RemoteReq → Option FoundReq
  | [] => none
  | r :: rest =>
    if patterns.contains r.short_id then
      match env.details w r.short_id with
      | some oid => some ⟨oid, r.short_id, effName env w r, r.status⟩
      | none => some ⟨some r.short_id, r.short_id, r.name, r.status⟩
    else findByPattern env w patterns rest

/-- `find_existing_req` from the script: the name strategy runs over the
whole snapshot first, the identifier-pattern strategy only afterwards. -/
def find_existing_req {W : Type} (env : Env W) (w : W) (title req_id : PyStr)
    (existing : List RemoteReq) : Option FoundReq :=
  match findByName env w (normalize_name title) existing with
  | some r => some r
  | none => findByPattern env w (mkPatterns req_id) existing

/-- `update_requirement_status` from the script: no command is run when the
identifier is missing or empty. -/
def update_requirement_status {W : Type} (env : Env W) (w : W) (rid : Option PyStr)
    (status : PyStr) : W × Bool :=
  match rid with
  | none => (w, false)
  | some r =>
    if r.isEmpty then (w, false)
    else
      let res := env.runUpdate w r status
      (res.2, res.1)

/-- `update_requirement` from the script: only the status is pushed
(content/title updates are out of scope for the remote side). -/
def update_requirement {W : Type} (env : Env W) (w : W) (rid : Option PyStr)
    (status : PyStr) : W × Bool :=
  if ¬ status.isEmpty then update_requirement_status env w rid status
  else (w, true)

/-- `create_requirement` from the script: run the create command, re-list,
re-find the created record by title, and push a non-default status. -/
def create_requirement {W : Type} (env : Env W) (w : W) (title content status : PyStr) :
    W × Bool × Option FoundReq :=
  let res := env.runCreate w title content
  if ¬ res.1 then (res.2, false, none)
  else
    let reqs := env.runList res.2
    match find_existing_req env res.2 title [] reqs with
    | some created =>
      let w2 :=
        if ¬ status.isEmpty ∧ status ≠ pys "PLANNED" then
          match created.id with
          | some rid => if rid.isEmpty then res.2
                        else (update_requirement_status env res.2 (some rid) status).1
          | none => res.2
        else res.2
      (w2, true, some created)
    | none => (res.2, true, none)

/-- The matched/unmatched halves of `sync_req_file` (after metadata
extraction): update an existing record or create a new one, with the
script's result messages. -/
def syncCore {W : Type} (env : Env W) (w : W) (title req_id content status : PyStr)
    (existing : List RemoteReq) : W × Bool × PyStr :=
  match find_existing_req env w title req_id existing with
  | some ex =>
    let res := update_requirement env w ex.id status
    if res.2 then (res.1, true, pys "Updated " ++ title ++ pys " (" ++ ex.short_id ++ pys ")")
    else (res.1, false, pys "Failed to update " ++ title)
  | none =>
    let res := create_requirement env w title content status
    if res.2.1 then
      let sid := match res.2.2 with
                 | some r => r.short_id
                 | none => pys "?"
      (res.1, true, pys "Created " ++ title ++ pys " (" ++ sid ++ pys ")")
    else (res.1, false, pys "Failed to create " ++ title)

/-- `sync_req_file` from the script, on a file's raw content.  The
`try/except` wrapper is modelled by returning the failure paths the code
reaches when a metadata value has the wrong shape: a list-valued status
makes `map_status` raise before the title check (dict lookup with an
unhashable key), a list-valued title or identifier raises inside / before
`find_existing_req`; each is caught and reported as a failed document.
(The modelled exception messages omit Python's quote characters.) -/
def sync_req_file {W : Type} (env : Env W) (w : W) (content : PyStr)
    (existing : List RemoteReq) : W × Bool × PyStr :=
  let md := (parse_yaml_front_matter content).1
  let req_idV := (dictGet md (pys "req_id")).getD (.str [])
  let titleV := (dictGet md (pys "title")).getD (.str [])
  let statusV := (dictGet md (pys "status")).getD (.str (pys "Not Started"))
  match statusV with
  | .list _ => (w, false, pys "unhashable type: list")
  | .str local_status =>
    let status := map_status local_status
    if ¬ pyTruthyV titleV then (w, false, pys "No title")
    else
      match titleV with
      | .list items =>
        (w, false,
         if (pys ":") ∈ items then pys "list object has no attribute split"
         else pys "list object has no attribute lower")
      | .str title =>
        match req_idV with
        | .list l =>
          if l.isEmpty then syncCore env w title [] content status existing
          else (w, false, pys "list object has no attribute replace")
        | .str req_id => syncCore env w title req_id content status existing

/-- The local→Braingrid loop of `main` (lines 664-671): process each file
against the current snapshot, and refresh the snapshot through the list
command after a successful creation. -/
def syncLoop {W : Type} (env : Env W) :
    W → List RemoteReq → List (PyStr × PyStr) → W × List (PyStr × Bool × PyStr)
  | w, _, [] => (w, [])
  | w, snap, (fname, content) :: rest =>
    let res := sync_req_file env w content snap
    let snap' := if res.2.1 && pyHasSub res.2.2 (pys "Created") then env.runList res.1 else snap
    let next := syncLoop env res.1 snap' rest
    (next.1, (fname, res.2.1, res.2.2) :: next.2)

/-- The line-rewriting loop of `update_local_status_from_braingrid`
(lines 591-602): a `status:` line is replaced exactly when the running
front-matter flag is set; the flag toggles at every line whose stripped
form is `---`. -/
def rwStatusLines (mapped : PyStr) : Bool → List PyStr → List PyStr
  | _, [] => []
  | fm, l :: ls =>
    if pyStrip l = pys "---" then l :: rwStatusLines mapped (!fm) ls
    else if fm ∧ (pys "status:").isPrefixOf l then
      (pys "status: " ++ mapped) :: rwStatusLines mapped fm ls
    else l :: rwStatusLines mapped fm ls

/-- The full rewrite of a file's content (split, rewrite, re-join). -/
def rwStatusContent (content mapped : PyStr) : PyStr :=
  pyJoinCh '\n' (rwStatusLines mapped false (pySplitCh '\n' content))

/-- The key a header line would be parsed under: the text before its first
colon, stripped (computed on the right-stripped line), if the line has a
colon at all. -/
def lineKey (l : PyStr) : Option PyStr :=
  let r := pyRStripWs l
  if r.contains ':' then some (pyStrip (pySplitFirst ':' r).1) else none

/-- The per-file body of `update_local_status_from_braingrid` (lines
578-607): read the file, compare the parsed local status against the
mapped remote status, and return the rewritten content when a write
happens (`none` when the write is skipped). -/
def update_local_status_file (content braingrid_status : PyStr) : Option PyStr :=
  let md := (parse_yaml_front_matter content).1
  let local_statusV := (dictGet md (pys "status")).getD (.str [])
  let mapped := reverse_map_status braingrid_status
  if local_statusV ≠ .str mapped then some (rwStatusContent content mapped)
  else none

/-- Modelled from the spec (the wording of claim C2): the leading prefix is
removed only when the text before the first colon is an identifier
(`REQ-` followed by digits, as in the source comment `REQ-XXX`); a title
with a non-identifier pre-colon prefix keeps its pre-colon text.  The rest
(lowercase, trim, qualifier suffixes) follows the code. -/
def normalizeClaimedC2 (t : PyStr) : PyStr :=
  let pre := pyStrip (pySplitFirst ':' t).1
  let isIdent := (pys "REQ-").isPrefixOf pre && decide (4 < pre.length) &&
    (pre.drop 4).all Char.isDigit
  let n1 := if t.contains ':' && isIdent then (pySplitFirst ':' t).2 else t
  NAME_SUFFIXES.foldl stripOneSuffix (pyStrip (pyLower n1))

/-- The amended C2 contract, written from its words: whenever the title
contains a colon, drop everything up to and including the first colon
(whether or not the pre-colon text is an identifier), then lowercase, trim
whitespace, and strip the fixed qualifier suffixes sequentially in source
order. -/
def normalizeAmendedC2 (t : PyStr) : PyStr :=
  let afterColon := if t.contains ':' then (t.dropWhile (fun c => ¬ c = ':')).drop 1 else t
  NAME_SUFFIXES.foldl stripOneSuffix (pyStrip (pyLower afterColon))

/-- The substitution applied to each header line by the rewrite loop while
the front-matter flag is set. -/
def rwLineSubst (m : PyStr) (l : PyStr) : PyStr :=
  if (pys "status:").isPrefixOf l then pys "status: " ++ m else l

/-- A trivial concrete remote service over a unit state, for witnesses:
listing is empty, create and update succeed, the detail lookups fail. -/
def envU : Env Unit where
  runList := fun _ => []
  runCreate := fun w _ _ => (true, w)
  runUpdate := fun w _ _ => (true, w)
  fullName := fun _ _ => none
  details := fun _ _ => none

/-- Concrete remote record used in witnesses: matched by name. -/
def exR1 : RemoteReq := ⟨pys "REQ-9", pys "Audit Log", pys "PLANNED"⟩

/-- Concrete remote record used in witnesses: matched by identifier
pattern. -/
def exR2 : RemoteReq := ⟨pys "REQ-7", pys "Other Thing", pys "REVIEW"⟩

example : parse_yaml_front_matter (pys "---\ntitle: Foo\nstatus: [a, b]\n---\nbody") =
    ([(pys "title", .str (pys "Foo")), (pys "status", .list [pys "a", pys "b"])], pys "body") := by
  decide

example : normalize_name (pys "REQ-001: Agent Configuration System") =
    pys "agent configuration" := by decide

example : map_status (pys "bogus") = pys "PLANNED" := by decide

example : mkPatterns (pys "REQ-042") =
    [pys "REQ-42", pys "REQ-042", pys "REQ-042"] := by decide

example : mkPatterns (pys "REQ-0") = [] := by decide

example : update_local_status_file (pys "---\nstatus: Not Started\n---\nbody") (pys "REVIEW") =
    some (pys "---\nstatus: Completed\n---\nbody") := by decide

example : update_local_status_file (pys "---\nstatus: Completed\n---\nbody") (pys "REVIEW") =
    none := by decide

/-! ### Helper lemmas -/

theorem takeItems_snd_length : ∀ ls : List PyStr, (takeItems ls).2.length ≤ ls.length := by
  intro ls
  induction ls with
  | nil => simp [takeItems]
  | cons l ls ih =>
    simp only [takeItems]
    by_cases h : startsWithCh '-' (pyStrip l) = true
    · simp only [h, if_pos]
      exact Nat.le_succ_of_le ih
    · simp [h]

theorem pySplitFirst_snd_eq (sep : Char) :
    ∀ s : PyStr, (pySplitFirst sep s).2 = (s.dropWhile (fun c => ¬ c = sep)).drop 1 := by
  intro s
  induction s with
  | nil => simp [pySplitFirst]
  | cons c rest ih =>
    by_cases h : c = sep
    · simp [pySplitFirst, h, List.dropWhile]
    · simp [pySplitFirst, h, List.dropWhile, ih]

theorem dictGet_eq_none {α : Type} :
    ∀ (m : List (PyStr × α)) (k : PyStr), k ∉ m.map Prod.fst → dictGet m k = none := by
  intro m k h
  induction m with
  | nil => rfl
  | cons p rest ih =>
    simp only [List.map_cons, List.mem_cons] at h
    push_neg at h
    simp only [dictGet, ih h.2]
    have : p.1 ≠ k := fun e => h.1 e.symm
    simp [this]

theorem findCloseAux_eq_none :
    ∀ (i : Nat) (ls : List PyStr), (∀ l ∈ ls, pyStrip l ≠ pys "---") →
      findCloseAux i ls = none := by
  intro i ls
  induction ls generalizing i with
  | nil => intro _; rfl
  | cons l rest ih =>
    intro h
    simp only [findCloseAux]
    have h1 : pyStrip l ≠ pys "---" := h l (List.mem_cons_self l rest)
    simp only [h1, if_false]
    exact ih (i + 1) (fun x hx => h x (List.mem_cons_of_mem l hx))

/-- C2: (amended) `normalize_name` drops everything up to and including the
first colon whenever the title contains a colon — whether or not the
pre-colon text is an identifier — then lowercases, trims whitespace, and
strips the fixed trailing qualifier suffixes sequentially in source order. -/
theorem thm_C2_normalize_name : ∀ t : PyStr, normalize_name t = normalizeAmendedC2 t := by
  intro t
  unfold normalize_name normalizeAmendedC2
  rw [pySplitFirst_snd_eq]

/-- C2: counterexample to the claim as stated — the title `Note: hello`
carries no identifier prefix, yet `normalize_name` discards its pre-colon
text, while the claimed contract keeps it. -/
theorem cex_C2_normalize_name :
    normalize_name (pys "Note: hello") = pys "hello" ∧
    normalizeClaimedC2 (pys "Note: hello") = pys "note: hello" ∧
    pys "hello" ≠ pys "note: hello" := by
  decide

/-- C3: (amended) whenever the identifier hint is non-empty and removing
every `REQ-` occurrence and leading zeros leaves a non-empty numeric part,
the candidate set contains the hint verbatim, the unpadded numeric form and
the zero-padded three-digit form; a hint whose numeric part strips to
nothing (such as `REQ-0`) yields no candidates at all. -/
theorem thm_C3_patterns :
    ∀ req_id : PyStr, ¬ req_id.isEmpty →
      ¬ (pyLStripZeros (pyRemoveAll (pys "REQ-") req_id)).isEmpty →
      req_id ∈ mkPatterns req_id ∧
      (pys "REQ-" ++ pyLStripZeros (pyRemoveAll (pys "REQ-") req_id)) ∈ mkPatterns req_id ∧
      (pys "REQ-" ++ pyZfill 3 (pyRemoveAll (pys "REQ-") req_id)) ∈ mkPatterns req_id := by
  intro rid h1 h2
  simp only [Bool.not_eq_true, List.isEmpty_iff] at h1 h2
  unfold mkPatterns
  simp only [List.isEmpty_iff, h1, if_neg, if_false]
  split
  · next hc => exact absurd hc h2
  · simp

/-- C3 witness: the theorem applied to the hint `REQ-042`. -/
theorem wit_C3_patterns :
    pys "REQ-042" ∈ mkPatterns (pys "REQ-042") ∧
    (pys "REQ-" ++ pyLStripZeros (pyRemoveAll (pys "REQ-") (pys "REQ-042"))) ∈
      mkPatterns (pys "REQ-042") ∧
    (pys "REQ-" ++ pyZfill 3 (pyRemoveAll (pys "REQ-") (pys "REQ-042"))) ∈
      mkPatterns (pys "REQ-042") :=
  thm_C3_patterns (pys "REQ-042") (by decide) (by decide)

/-- C3: counterexample to the claim as stated — the non-empty hint `REQ-0`
produces an empty candidate set, which does not contain the hint. -/
theorem cex_C3_patterns :
    mkPatterns (pys "REQ-0") = [] ∧ pys "REQ-0" ∉ mkPatterns (pys "REQ-0") := by
  decide

/-- C6: the status mapping functions are total functions of their input,
and any input outside the mapping tables yields `PLANNED` in the
local→remote direction and `Not Started` in the remote→local direction. -/
theorem thm_C6_status_total :
    ∀ s : PyStr,
      (s ∉ STATUS_MAP.map Prod.fst → map_status s = pys "PLANNED") ∧
      (s ∉ REVERSE_STATUS_MAP.map Prod.fst → reverse_map_status s = pys "Not Started") := by
  intro s
  constructor
  · intro h
    unfold map_status
    rw [dictGet_eq_none STATUS_MAP s h]
    rfl
  · intro h
    unfold reverse_map_status
    rw [dictGet_eq_none REVERSE_STATUS_MAP s h]
    rfl

/-- C6 witness: the unrecognized input `BOGUS` maps to the defaults in both
directions. -/
theorem wit_C6_status_total :
    map_status (pys "BOGUS") = pys "PLANNED" ∧
    reverse_map_status (pys "BOGUS") = pys "Not Started" :=
  ⟨(thm_C6_status_total (pys "BOGUS")).1 (by decide),
   (thm_C6_status_total (pys "BOGUS")).2 (by decide)⟩

/-- C8: a text that does not begin with the `---` delimiter, or whose
header has no closing `---` line (no line after the first whose stripped
form is `---`), parses to an empty metadata mapping with the original text
returned unchanged. -/
theorem thm_C8_fails_open :
    ∀ content : PyStr,
      (¬ (pys "---").isPrefixOf content → parse_yaml_front_matter content = ([], content)) ∧
      ((∀ l ∈ (pySplitCh '\n' content).tail, pyStrip l ≠ pys "---") →
        parse_yaml_front_matter content = ([], content)) := by
  intro content
  constructor
  · intro h
    unfold parse_yaml_front_matter
    simp [h]
  · intro h
    unfold parse_yaml_front_matter
    by_cases hp : (pys "---").isPrefixOf content
    · simp only [hp, not_true, if_neg, if_false]
      by_cases hl : (pySplitCh '\n' content).length < 2
      · simp [hl]
      · simp only [hl, if_false]
        rw [findCloseAux_eq_none 1 (pySplitCh '\n' content).tail h]
    · simp [hp]

/-- C8 witness: a text with no leading delimiter, and a text whose header
never closes, both fail open. -/
theorem wit_C8_fails_open :
    parse_yaml_front_matter (pys "hello") = ([], pys "hello") ∧
    parse_yaml_front_matter (pys "---\ntitle: X") = ([], pys "---\ntitle: X") :=
  ⟨(thm_C8_fails_open (pys "hello")).1 (by decide),
   (thm_C8_fails_open (pys "---\ntitle: X")).2 (by decide)⟩

/-- C10: the metadata parser is a total function — on every input it
terminates and returns a (metadata, body) pair; moreover anything other
than the fail-open identity result can only arise for a text that begins
with the `---` delimiter. -/
theorem thm_C10_parser_total :
    ∀ content : PyStr, ∃ md body,
      parse_yaml_front_matter content = (md, body) ∧
      ((md = [] ∧ body = content) ∨ (pys "---").isPrefixOf content) := by
  intro content
  by_cases h : (pys "---").isPrefixOf content
  · exact ⟨(parse_yaml_front_matter content).1, (parse_yaml_front_matter content).2,
      rfl, Or.inr h⟩
  · refine ⟨[], content, ?_, Or.inl ⟨rfl, rfl⟩⟩
    unfold parse_yaml_front_matter
    simp [h]

theorem isPrefixOf_append_self : ∀ l t : PyStr, l.isPrefixOf (l ++ t) = true := by
  intro l t
  induction l with
  | nil => simp [List.isPrefixOf]
  | cons c l' ih => simp [List.isPrefixOf, ih]

theorem isPrefixOf_append_left :
    ∀ s1 s2 t : PyStr, (s1 ++ s2).isPrefixOf t = true → s1.isPrefixOf t = true := by
  intro s1
  induction s1 with
  | nil => intro s2 t _; simp [List.isPrefixOf]
  | cons c s1' ih =>
    intro s2 t h
    cases t with
    | nil => simp [List.isPrefixOf] at h
    | cons d t' =>
      simp only [List.cons_append, List.isPrefixOf, Bool.and_eq_true] at h ⊢
      exact ⟨h.1, ih s2 t' h.2⟩

theorem pyHasSub_of_isPrefixOf :
    ∀ hay sub : PyStr, sub.isPrefixOf hay = true → pyHasSub hay sub = true := by
  intro hay sub h
  cases hay with
  | nil =>
    cases sub with
    | nil => rfl
    | cons c t => simp [List.isPrefixOf] at h
  | cons c t => simp [pyHasSub, h]

theorem created_in_msg :
    ∀ msg : PyStr, (pys "Created ").isPrefixOf msg = true →
      pyHasSub msg (pys "Created") = true := by
  intro msg h
  apply pyHasSub_of_isPrefixOf
  have he : pys "Created " = pys "Created" ++ [' '] := by decide
  rw [he] at h
  exact isPrefixOf_append_left (pys "Created") [' '] msg h

theorem findByName_eq_some {W : Type} (env : Env W) (w : W) (tnorm : PyStr) :
    ∀ existing : List RemoteReq,
      (∃ r ∈ existing, nameMatches env w tnorm r = true) →
      ∃ res r, findByName env w tnorm existing = some res ∧ r ∈ existing ∧
        nameMatches env w tnorm r = true ∧ res.short_id = r.short_id ∧
        res.name = effName env w r ∧ res.status = r.status := by
  intro existing h
  induction existing with
  | nil => rcases h with ⟨r, hr, _⟩; cases hr
  | cons r0 rest ih =>
    by_cases h0 : nameMatches env w tnorm r0 = true
    · cases hd : env.details w r0.short_id with
      | some oid =>
        exact ⟨⟨oid, r0.short_id, effName env w r0, r0.status⟩, r0,
          by simp [findByName, h0, hd], List.mem_cons_self r0 rest, h0, rfl, rfl, rfl⟩
      | none =>
        exact ⟨⟨some r0.short_id, r0.short_id, effName env w r0, r0.status⟩, r0,
          by simp [findByName, h0, hd], List.mem_cons_self r0 rest, h0, rfl, rfl, rfl⟩
    · rcases h with ⟨r, hr, hm⟩
      rcases List.mem_cons.mp hr with he | ht
      · subst he; exact absurd hm h0
      · rcases ih ⟨r, ht, hm⟩ with ⟨res, r', hfind, hmem, hm', hs1, hs2, hs3⟩
        exact ⟨res, r', by simp [findByName, h0, hfind],
          List.mem_cons_of_mem r0 hmem, hm', hs1, hs2, hs3⟩

/-- C1: when some remote record matches the local title under the
normalized-name comparison, `find_existing_req` returns the result of the
name strategy — a record matching by name, with the name the matcher
compared (detail-fetched full name preferred) — and not the
identifier-pattern match, even when a different record's short identifier
is among the generated candidate strings. -/
theorem thm_C1_name_priority {W : Type} (env : Env W) (w : W) (title req_id : PyStr)
    (existing : List RemoteReq) (r1 r2 : RemoteReq)
    (h1 : r1 ∈ existing) (h2 : nameMatches env w (normalize_name title) r1 = true)
    (_h3 : r2 ∈ existing) (_h4 : r2.short_id ∈ mkPatterns req_id)
    (_h5 : r2.short_id ≠ r1.short_id) :
    find_existing_req env w title req_id existing =
      findByName env w (normalize_name title) existing ∧
    ∃ res r, findByName env w (normalize_name title) existing = some res ∧
      r ∈ existing ∧ nameMatches env w (normalize_name title) r = true ∧
      res.short_id = r.short_id ∧ res.name = effName env w r ∧ res.status = r.status := by
  have hf := findByName_eq_some env w (normalize_name title) existing ⟨r1, h1, h2⟩
  refine ⟨?_, hf⟩
  rcases hf with ⟨res, r, hfind, _⟩
  unfold find_existing_req
  rw [hfind]

/-- C1 witness: a concrete snapshot in which `exR1` matches the title by
name while the distinct record `exR2` matches by identifier pattern; the
matcher returns the name-strategy result. -/
theorem wit_C1_name_priority :
    find_existing_req envU () (pys "Audit Log") (pys "REQ-7") [exR1, exR2] =
      findByName envU () (normalize_name (pys "Audit Log")) [exR1, exR2] ∧
    ∃ res r, findByName envU () (normalize_name (pys "Audit Log")) [exR1, exR2] = some res ∧
      r ∈ [exR1, exR2] ∧ nameMatches envU () (normalize_name (pys "Audit Log")) r = true ∧
      res.short_id = r.short_id ∧ res.name = effName envU () r ∧ res.status = r.status :=
  thm_C1_name_priority envU () (pys "Audit Log") (pys "REQ-7") [exR1, exR2] exR1 exR2
    (by decide) (by decide) (by decide) (by decide) (by decide)

/-- C7: when processing a document yields a successful creation (result
messages of the form `Created …` arise exactly from the creation branch of
`sync_req_file`), the local→remote loop refreshes the snapshot through the
list command in the post-creation remote state before the remaining
documents are processed. -/
theorem thm_C7_refresh {W : Type} (env : Env W) (w : W) (snap : List RemoteReq)
    (fname content : PyStr) (rest : List (PyStr × PyStr)) (w1 : W) (msg : PyStr)
    (h : sync_req_file env w content snap = (w1, true, msg))
    (hmsg : (pys "Created ").isPrefixOf msg = true) :
    syncLoop env w snap ((fname, content) :: rest) =
      ((syncLoop env w1 (env.runList w1) rest).1,
       (fname, true, msg) :: (syncLoop env w1 (env.runList w1) rest).2) := by
  have hsub : pyHasSub msg (pys "Created") = true := created_in_msg msg hmsg
  simp [syncLoop, h, hsub]

/-- C7 witness: a one-document batch whose document is created; the
snapshot for the (empty) remainder of the batch is the re-fetched list. -/
theorem wit_C7_refresh :
    syncLoop envU () [] [(pys "f.md", pys "---\ntitle: Foo\n---\nx")] =
      ((syncLoop envU () (envU.runList ()) []).1,
       (pys "f.md", true, pys "Created Foo (?)") :: (syncLoop envU () (envU.runList ()) []).2) :=
  thm_C7_refresh envU () [] (pys "f.md") (pys "---\ntitle: Foo\n---\nx") [] ()
    (pys "Created Foo (?)") (by decide) (by decide)

/-- C9: (amended) a document whose metadata lacks a (truthy) title and
whose status value is not a list fails with the `No title` message and
leaves the remote state untouched for every environment — so no remote
create or update is invoked; and the loop of `main` always processes every
document of the batch, recording one outcome per document. -/
theorem thm_C9_missing_title :
    (∀ (W : Type) (env : Env W) (w : W) (content : PyStr) (existing : List RemoteReq),
      pyTruthyV ((dictGet (parse_yaml_front_matter content).1 (pys "title")).getD
        (.str [])) = false →
      isStrV ((dictGet (parse_yaml_front_matter content).1 (pys "status")).getD
        (.str (pys "Not Started"))) = true →
      sync_req_file env w content existing = (w, false, pys "No title")) ∧
    (∀ (W : Type) (env : Env W) (w : W) (snap : List RemoteReq)
      (docs : List (PyStr × PyStr)),
      (syncLoop env w snap docs).2.length = docs.length) := by
  constructor
  · intro W env w content existing htitle hstatus
    cases hv : (dictGet (parse_yaml_front_matter content).1 (pys "status")).getD
        (.str (pys "Not Started")) with
    | list xs => rw [hv] at hstatus; simp [isStrV] at hstatus
    | str s => simp [sync_req_file, hv, htitle]
  · intro W env w snap docs
    induction docs generalizing w snap with
    | nil => rfl
    | cons d rest ih =>
      obtain ⟨fname, content⟩ := d
      simp only [syncLoop, List.length_cons]
      rw [ih]

/-- C9 witness: a document with an identifier but no title fails with
`No title` without touching the remote state, and a two-document batch
yields two outcomes. -/
theorem wit_C9_missing_title :
    sync_req_file envU () (pys "---\nreq_id: REQ-001\n---\nbody") [] =
      ((), false, pys "No title") ∧
    (syncLoop envU () [] [(pys "a.md", pys "x"), (pys "b.md", pys "y")]).2.length = 2 :=
  ⟨thm_C9_missing_title.1 Unit envU () (pys "---\nreq_id: REQ-001\n---\nbody") []
      (by decide) (by decide),
   thm_C9_missing_title.2 Unit envU () [] [(pys "a.md", pys "x"), (pys "b.md", pys "y")]⟩

/-- C9: counterexample to the claim as stated — this document lacks a
title, but its list-valued status makes the status lookup raise before the
title check is reached, so the recorded per-document failure message is
the exception text, not `No title`.  (Python reports the TypeError message
`unhashable type: 'list'`; the model omits the quote characters.) -/
theorem cex_C9_missing_title :
    pyTruthyV ((dictGet (parse_yaml_front_matter (pys "---\nstatus: [x]\n---\n")).1
      (pys "title")).getD (.str [])) = false ∧
    sync_req_file envU () (pys "---\nstatus: [x]\n---\n") [] =
      ((), false, pys "unhashable type: list") ∧
    pys "unhashable type: list" ≠ pys "No title" := by
  decide

/-- C4: counterexample to the claim as stated — a stray `---` line in the
body re-opens the rewrite region, so a `status:` line lying after the
closing delimiter of the header block is replaced too, instead of being
written back unchanged. -/
theorem cex_C4_frame :
    update_local_status_file (pys "---\nstatus: Old\n---\nbody\n---\nstatus: Old")
      (pys "REVIEW") =
      some (pys "---\nstatus: Completed\n---\nbody\n---\nstatus: Completed") ∧
    (rwStatusLines (pys "Completed") false
      [pys "---", pys "status: Old", pys "---", pys "body", pys "---",
       pys "status: Old"]).get? 5 ≠ some (pys "status: Old") := by
  decide

theorem rwStatusLines_get? (m : PyStr) :
    ∀ (lines : List PyStr) (fm : Bool) (i : Nat),
      (rwStatusLines m fm lines).get? i =
        (lines.get? i).map (fun l =>
          if pyStrip l ≠ pys "---" ∧
             ((lines.take i).countP (fun l' => pyStrip l' == pys "---") +
               (if fm then 1 else 0)) % 2 = 1 ∧
             (pys "status:").isPrefixOf l = true
          then pys "status: " ++ m else l) := by
  intro lines
  induction lines with
  | nil => intro fm i; simp [rwStatusLines]
  | cons l ls ih =>
    intro fm i
    by_cases hd : pyStrip l = pys "---"
    · cases i with
      | zero => simp [rwStatusLines, hd]
      | succ j =>
        have hb : (pyStrip l == pys "---") = true := by simp [hd]
        simp only [rwStatusLines, if_pos hd, List.get?_cons_succ, List.take_succ_cons,
          List.countP_cons, hb]
        rw [ih (!fm) j]
        cases hval : ls.get? j with
        | none => rfl
        | some x =>
          simp only [Option.map_some']
          have harith : (List.countP (fun l' => pyStrip l' == pys "---") (List.take j ls) +
              if (!fm) = true then 1 else 0) % 2 =
              (List.countP (fun l' => pyStrip l' == pys "---") (List.take j ls) +
              (if (true : Bool) = true then 1 else 0) + if fm = true then 1 else 0) % 2 := by
            cases fm <;> simp <;> omega
          rw [harith]
          simp
    · have htail : ∀ j : Nat,
          (rwStatusLines m fm (l :: ls)).get? (j + 1) = (rwStatusLines m fm ls).get? j := by
        intro j
        by_cases hrep : fm = true ∧ (pys "status:").isPrefixOf l = true
        · simp only [rwStatusLines, if_neg hd, if_pos hrep, List.get?_cons_succ]
        · simp only [rwStatusLines, if_neg hd, if_neg hrep, List.get?_cons_succ]
      cases i with
      | zero =>
        by_cases hs : (pys "status:").isPrefixOf l = true
        · have hs2 : pys "status:" <+: l := by simpa using hs
          cases hfm : fm <;> simp [rwStatusLines, hd, hs, hs2, hfm]
        · have hs2 : ¬ pys "status:" <+: l := by simpa using hs
          cases hfm : fm <;> simp [rwStatusLines, hd, hs, hs2, hfm]
      | succ j =>
        have hb : (pyStrip l == pys "---") = false := by simp [hd]
        rw [htail j, ih fm j]
        simp [hb, List.take_succ_cons, List.countP_cons]

/-- C4: (amended) during the remote→local status rewrite, a line is
replaced exactly when it starts with `status:`, is not itself a delimiter,
and is preceded by an odd number of lines whose stripped form is `---` —
the front-matter flag toggles at every such delimiter line, so a stray
delimiter in the body re-opens the rewrite region; every other line is
written back unchanged. -/
theorem thm_C4_frame :
    ∀ (m : PyStr) (lines : List PyStr) (i : Nat),
      (rwStatusLines m false lines).get? i =
        (lines.get? i).map (fun l =>
          if pyStrip l ≠ pys "---" ∧
             ((lines.take i).countP (fun l' => pyStrip l' == pys "---")) % 2 = 1 ∧
             (pys "status:").isPrefixOf l = true
          then pys "status: " ++ m else l) := by
  intro m lines i
  have h := rwStatusLines_get? m lines false i
  simpa using h

theorem pySplitCh_ne_nil (sep : Char) : ∀ s : PyStr, pySplitCh sep s ≠ [] := by
  intro s
  cases s with
  | nil => simp [pySplitCh]
  | cons c rest =>
    simp only [pySplitCh]
    cases h : pySplitCh sep rest with
    | nil => simp
    | cons g gs => by_cases hc : c = sep <;> simp [hc]

theorem pyJoinCh_cons_cons (sep c : Char) (g : PyStr) (gs : List PyStr) :
    pyJoinCh sep ((c :: g) :: gs) = c :: pyJoinCh sep (g :: gs) := by
  cases gs <;> rfl

theorem pyJoinCh_pySplitCh (sep : Char) : ∀ s : PyStr, pyJoinCh sep (pySplitCh sep s) = s := by
  intro s
  induction s with
  | nil => rfl
  | cons c rest ih =>
    simp only [pySplitCh]
    cases h : pySplitCh sep rest with
    | nil => exact absurd h (pySplitCh_ne_nil sep rest)
    | cons g gs =>
      rw [h] at ih
      by_cases hc : c = sep
      · subst hc
        simp only [if_pos rfl, pyJoinCh, List.nil_append]
        rw [ih]
      · simp only [if_neg hc]
        rw [pyJoinCh_cons_cons, ih]

theorem pySplitCh_pieces (sep : Char) :
    ∀ (s g : PyStr), g ∈ pySplitCh sep s → sep ∉ g := by
  intro s
  induction s with
  | nil =>
    intro g hg
    simp [pySplitCh] at hg
    subst hg; simp
  | cons c rest ih =>
    intro g hg
    simp only [pySplitCh] at hg
    cases h : pySplitCh sep rest with
    | nil => exact absurd h (pySplitCh_ne_nil sep rest)
    | cons g0 gs =>
      simp only [h] at hg
      by_cases hc : c = sep
      · rw [if_pos hc] at hg
        rcases List.mem_cons.mp hg with he | ht
        · subst he; simp
        · exact ih g (by rw [h]; exact ht)
      · rw [if_neg hc] at hg
        rcases List.mem_cons.mp hg with he | ht
        · subst he
          have hg0 : sep ∉ g0 := ih g0 (by rw [h]; exact List.mem_cons_self g0 gs)
          intro hmem
          rcases List.mem_cons.mp hmem with he2 | ht2
          · exact hc he2.symm
          · exact hg0 ht2
        · exact ih g (by rw [h]; exact List.mem_cons_of_mem g0 ht)

theorem pySplitCh_no_sep (sep : Char) : ∀ g : PyStr, sep ∉ g → pySplitCh sep g = [g] := by
  intro g
  induction g with
  | nil => intro _; rfl
  | cons c g' ih =>
    intro h
    have hcs : ¬ c = sep := by intro e; exact h (by simp [e])
    have hg' : sep ∉ g' := fun hm => h (List.mem_cons_of_mem c hm)
    simp only [pySplitCh, ih hg']
    simp [hcs]

theorem pySplitCh_cons_eq (sep : Char) : ∀ (g t : PyStr), sep ∉ g →
    pySplitCh sep (g ++ sep :: t) = g :: pySplitCh sep t := by
  intro g
  induction g with
  | nil =>
    intro t _
    simp only [List.nil_append, pySplitCh]
    cases h : pySplitCh sep t with
    | nil => exact absurd h (pySplitCh_ne_nil sep t)
    | cons g0 gs => simp
  | cons c g' ih =>
    intro t hc
    have hcs : ¬ c = sep := by intro e; exact hc (by simp [e])
    have hg' : sep ∉ g' := fun hm => hc (List.mem_cons_of_mem c hm)
    have hstep := ih t hg'
    show pySplitCh sep (c :: (g' ++ sep :: t)) = (c :: g') :: pySplitCh sep t
    rw [pySplitCh, hstep]
    simp [hcs]

theorem pySplitCh_pyJoinCh (sep : Char) : ∀ L : List PyStr, L ≠ [] →
    (∀ g ∈ L, sep ∉ g) → pySplitCh sep (pyJoinCh sep L) = L := by
  intro L
  induction L with
  | nil => intro h _; exact absurd rfl h
  | cons g L' ih =>
    intro _ hall
    cases L' with
    | nil => simpa [pyJoinCh] using pySplitCh_no_sep sep g (hall g (by simp))
    | cons g2 gs =>
      have hjoin : pyJoinCh sep (g :: g2 :: gs) = g ++ sep :: pyJoinCh sep (g2 :: gs) := rfl
      rw [hjoin, pySplitCh_cons_eq sep g _ (hall g (by simp))]
      rw [ih (by simp) (fun x hx => hall x (List.mem_cons_of_mem g hx))]

theorem dictGet_cons_ne {α : Type} (k' k : PyStr) (v : α) (es : List (PyStr × α))
    (h : k' ≠ k) : dictGet ((k', v) :: es) k = dictGet es k := by
  simp only [dictGet]
  cases dictGet es k with
  | none => simp [h]
  | some v' => rfl

theorem dictGet_cons_self_isSome {α : Type} (k : PyStr) (v : α) (es : List (PyStr × α)) :
    (dictGet ((k, v) :: es) k).isSome = true := by
  simp only [dictGet]
  cases dictGet es k with
  | none => simp
  | some v' => rfl

theorem dictGet_cons_isSome_of {α : Type} (k' k : PyStr) (v : α) (es : List (PyStr × α))
    (h : (dictGet es k).isSome = true) : (dictGet ((k', v) :: es) k).isSome = true := by
  simp only [dictGet]
  cases he : dictGet es k with
  | none => rw [he] at h; simp at h
  | some v' => rfl

theorem dictGet_cons_self_val {α : Type} (k : PyStr) (v : α) (es : List (PyStr × α)) (v'' : α)
    (h : dictGet ((k, v) :: es) k = some v'') : v'' = v ∨ dictGet es k = some v'' := by
  simp only [dictGet] at h
  cases he : dictGet es k with
  | none =>
    rw [he] at h
    simp at h
    exact Or.inl h.symm
  | some v' =>
    rw [he] at h
    simp at h
    right
    rw [h]

theorem dictGet_mem {α : Type} : ∀ (mp : List (PyStr × α)) (k : PyStr) (v : α),
    dictGet mp k = some v → (k, v) ∈ mp := by
  intro mp
  induction mp with
  | nil => intro k v h; cases h
  | cons p rest ih =>
    intro k v h
    obtain ⟨k', v'⟩ := p
    simp only [dictGet] at h
    cases he : dictGet rest k with
    | some v0 =>
      rw [he] at h
      simp at h
      exact List.mem_cons_of_mem _ (ih k v (by rw [he, h]))
    | none =>
      rw [he] at h
      by_cases hk : k' = k
      · rw [if_pos hk] at h
        simp at h
        subst hk; subst h
        exact List.mem_cons_self _ _
      · rw [if_neg hk] at h
        cases h

theorem takeItems_snd_subset : ∀ (ls : List PyStr) (x : PyStr),
    x ∈ (takeItems ls).2 → x ∈ ls := by
  intro ls
  induction ls with
  | nil => intro x h; simp [takeItems] at h
  | cons l ls' ih =>
    intro x h
    by_cases hc : startsWithCh '-' (pyStrip l) = true
    · simp only [takeItems, if_pos hc] at h
      exact List.mem_cons_of_mem l (ih x h)
    · simp only [takeItems, if_neg hc] at h
      exact h

theorem takeItems_keeps : ∀ (ls : List PyStr) (x : PyStr), x ∈ ls →
    startsWithCh '-' (pyStrip x) = false → x ∈ (takeItems ls).2 := by
  intro ls
  induction ls with
  | nil => intro x h _; cases h
  | cons l ls' ih =>
    intro x hx hns
    by_cases hc : startsWithCh '-' (pyStrip l) = true
    · simp only [takeItems, if_pos hc]
      rcases List.mem_cons.mp hx with he | ht
      · subst he; rw [hc] at hns; cases hns
      · exact ih x ht hns
    · simp only [takeItems, if_neg hc]
      exact hx

theorem rwStatusLines_mem (m : PyStr) : ∀ (fm : Bool) (L : List PyStr) (l' : PyStr),
    l' ∈ rwStatusLines m fm L → l' ∈ L ∨ l' = pys "status: " ++ m := by
  intro fm L
  induction L generalizing fm with
  | nil => intro l' h; simp [rwStatusLines] at h
  | cons l ls ih =>
    intro l' h
    by_cases hd : pyStrip l = pys "---"
    · simp only [rwStatusLines, if_pos hd] at h
      rcases List.mem_cons.mp h with he | ht
      · exact Or.inl (he ▸ List.mem_cons_self l ls)
      · rcases ih (!fm) l' ht with h1 | h2
        · exact Or.inl (List.mem_cons_of_mem l h1)
        · exact Or.inr h2
    · by_cases hrep : fm = true ∧ (pys "status:").isPrefixOf l = true
      · simp only [rwStatusLines, if_neg hd, if_pos hrep] at h
        rcases List.mem_cons.mp h with he | ht
        · exact Or.inr he
        · rcases ih fm l' ht with h1 | h2
          · exact Or.inl (List.mem_cons_of_mem l h1)
          · exact Or.inr h2
      · simp only [rwStatusLines, if_neg hd, if_neg hrep] at h
        rcases List.mem_cons.mp h with he | ht
        · exact Or.inl (he ▸ List.mem_cons_self l ls)
        · rcases ih fm l' ht with h1 | h2
          · exact Or.inl (List.mem_cons_of_mem l h1)
          · exact Or.inr h2

theorem rwStatusLines_true_mid (m : PyStr) : ∀ (mid rest : List PyStr),
    (∀ l ∈ mid, pyStrip l ≠ pys "---") →
    rwStatusLines m true (mid ++ pys "---" :: rest) =
      mid.map (rwLineSubst m) ++ pys "---" :: rwStatusLines m false rest := by
  intro mid
  induction mid with
  | nil =>
    intro rest _
    have h0 : pyStrip (pys "---") = pys "---" := by decide
    simp only [List.nil_append, List.map_nil, rwStatusLines, if_pos h0, Bool.not_true]
  | cons l mid' ih =>
    intro rest hall
    have hd : pyStrip l ≠ pys "---" := hall l (List.mem_cons_self l mid')
    have htl := ih rest (fun x hx => hall x (List.mem_cons_of_mem l hx))
    show rwStatusLines m true ((l :: mid') ++ pys "---" :: rest) = _
    rw [List.cons_append, rwStatusLines, if_neg hd]
    by_cases hs : (pys "status:").isPrefixOf l = true
    · rw [if_pos (⟨rfl, hs⟩ : true = true ∧ (pys "status:").isPrefixOf l = true)]
      rw [htl, List.map_cons, rwLineSubst, if_pos hs, List.cons_append]
    · rw [if_neg (fun hp => hs hp.2 :
        ¬ (true = true ∧ (pys "status:").isPrefixOf l = true))]
      rw [htl, List.map_cons, rwLineSubst, if_neg hs, List.cons_append]

theorem rwStatusLines_shape (m : PyStr) (mid rest : List PyStr)
    (hmid : ∀ l ∈ mid, pyStrip l ≠ pys "---") :
    rwStatusLines m false (pys "---" :: (mid ++ pys "---" :: rest)) =
      pys "---" :: (mid.map (rwLineSubst m) ++ pys "---" :: rwStatusLines m false rest) := by
  have h0 : pyStrip (pys "---") = pys "---" := by decide
  simp only [rwStatusLines, if_pos h0, Bool.not_false]
  rw [rwStatusLines_true_mid m mid rest hmid]

theorem findCloseAux_append : ∀ (mid : List PyStr) (rest : List PyStr) (i : Nat),
    (∀ l ∈ mid, pyStrip l ≠ pys "---") →
    findCloseAux i (mid ++ pys "---" :: rest) = some (i + mid.length) := by
  intro mid
  induction mid with
  | nil =>
    intro rest i _
    have h0 : pyStrip (pys "---") = pys "---" := by decide
    simp [findCloseAux, h0]
  | cons l mid' ih =>
    intro rest i hall
    have hd : pyStrip l ≠ pys "---" := hall l (List.mem_cons_self l mid')
    show findCloseAux i ((l :: mid') ++ pys "---" :: rest) = some (i + (l :: mid').length)
    rw [List.cons_append, findCloseAux, if_neg hd]
    rw [ih rest (i + 1) (fun x hx => hall x (List.mem_cons_of_mem l hx))]
    congr 1
    simp only [List.length_cons]
    omega

theorem parse_shape : ∀ (content : PyStr) (mid rest : List PyStr),
    pySplitCh '\n' content = pys "---" :: (mid ++ pys "---" :: rest) →
    (∀ l ∈ mid, pyStrip l ≠ pys "---") →
    parse_yaml_front_matter content = (parseEntries mid, pyJoinCh '\n' rest) := by
  intro content mid rest hsplit hall
  have hjoin : content = pyJoinCh '\n' (pys "---" :: (mid ++ pys "---" :: rest)) := by
    rw [← hsplit, pyJoinCh_pySplitCh]
  have hpre : (pys "---").isPrefixOf content = true := by
    rw [hjoin]
    cases hmid2 : mid ++ pys "---" :: rest with
    | nil => simp at hmid2
    | cons a as =>
      rw [show pyJoinCh '\n' (pys "---" :: a :: as) =
        pys "---" ++ '\n' :: pyJoinCh '\n' (a :: as) from rfl]
      exact isPrefixOf_append_self (pys "---") ('\n' :: pyJoinCh '\n' (a :: as))
  have hlen : ¬ (pySplitCh '\n' content).length < 2 := by
    rw [hsplit]
    simp only [List.length_cons, List.length_append]
    omega
  have htail : (pySplitCh '\n' content).tail = mid ++ pys "---" :: rest := by
    rw [hsplit]; rfl
  have hclose : findCloseAux 1 (pySplitCh '\n' content).tail = some (1 + mid.length) := by
    rw [htail]; exact findCloseAux_append mid rest 1 hall
  have htake : ((pySplitCh '\n' content).drop 1).take (1 + mid.length - 1) = mid := by
    rw [hsplit]
    have h1 : 1 + mid.length - 1 = mid.length := by omega
    rw [h1]
    show (mid ++ pys "---" :: rest).take mid.length = mid
    rw [List.take_left]
  have hdrop : (pySplitCh '\n' content).drop (1 + mid.length + 1) = rest := by
    rw [hsplit]
    show (mid ++ pys "---" :: rest).drop (1 + mid.length) = rest
    have h2 : mid ++ pys "---" :: rest = (mid ++ [pys "---"]) ++ rest := by simp
    have h3 : 1 + mid.length = (mid ++ [pys "---"]).length := by simp; omega
    rw [h2, h3, List.drop_left]
  unfold parse_yaml_front_matter
  rw [if_neg (by simp [hpre])]
  simp only [hlen, if_false, hclose, htake, hdrop]

theorem parseEntriesF_skip (fuel : Nat) (l0 : PyStr) (rest : List PyStr)
    (h1 : ((pyRStripWs l0).isEmpty || startsWithCh '#' (pyRStripWs l0)) = true) :
    parseEntriesF (fuel + 1) (l0 :: rest) = parseEntriesF fuel rest := by
  rw [parseEntriesF, if_pos h1]

theorem parseEntriesF_nocolon (fuel : Nat) (l0 : PyStr) (rest : List PyStr)
    (h1 : ¬ ((pyRStripWs l0).isEmpty || startsWithCh '#' (pyRStripWs l0)) = true)
    (h2 : ¬ (pyRStripWs l0).contains ':' = true) :
    parseEntriesF (fuel + 1) (l0 :: rest) = parseEntriesF fuel rest := by
  rw [parseEntriesF, if_neg h1, if_neg h2]

theorem parseEntriesF_inline (fuel : Nat) (l0 : PyStr) (rest : List PyStr)
    (h1 : ¬ ((pyRStripWs l0).isEmpty || startsWithCh '#' (pyRStripWs l0)) = true)
    (h2 : (pyRStripWs l0).contains ':' = true)
    (h3 : (startsWithCh '[' (pyUnquote (pyStrip (pySplitFirst ':' (pyRStripWs l0)).2)) &&
      endsWithCh ']' (pyUnquote (pyStrip (pySplitFirst ':' (pyRStripWs l0)).2))) = true) :
    parseEntriesF (fuel + 1) (l0 :: rest) =
      (pyStrip (pySplitFirst ':' (pyRStripWs l0)).1,
       .list (inlineItems (pyStrip
         (((pyUnquote (pyStrip (pySplitFirst ':' (pyRStripWs l0)).2)).drop 1).dropLast)))) ::
        parseEntriesF fuel rest := by
  rw [parseEntriesF, if_neg h1, if_pos h2, if_pos h3]

theorem parseEntriesF_block (fuel : Nat) (l0 : PyStr) (rest : List PyStr)
    (h1 : ¬ ((pyRStripWs l0).isEmpty || startsWithCh '#' (pyRStripWs l0)) = true)
    (h2 : (pyRStripWs l0).contains ':' = true)
    (h3 : ¬ (startsWithCh '[' (pyUnquote (pyStrip (pySplitFirst ':' (pyRStripWs l0)).2)) &&
      endsWithCh ']' (pyUnquote (pyStrip (pySplitFirst ':' (pyRStripWs l0)).2))) = true)
    (h4 : ((pyUnquote (pyStrip (pySplitFirst ':' (pyRStripWs l0)).2)).isEmpty &&
      nextIsItem rest) = true) :
    parseEntriesF (fuel + 1) (l0 :: rest) =
      (pyStrip (pySplitFirst ':' (pyRStripWs l0)).1, .list (takeItems rest).1) ::
        parseEntriesF fuel (takeItems rest).2 := by
  rw [parseEntriesF, if_neg h1, if_pos h2, if_neg h3, if_pos h4]

theorem parseEntriesF_plain (fuel : Nat) (l0 : PyStr) (rest : List PyStr)
    (h1 : ¬ ((pyRStripWs l0).isEmpty || startsWithCh '#' (pyRStripWs l0)) = true)
    (h2 : (pyRStripWs l0).contains ':' = true)
    (h3 : ¬ (startsWithCh '[' (pyUnquote (pyStrip (pySplitFirst ':' (pyRStripWs l0)).2)) &&
      endsWithCh ']' (pyUnquote (pyStrip (pySplitFirst ':' (pyRStripWs l0)).2))) = true)
    (h4 : ¬ ((pyUnquote (pyStrip (pySplitFirst ':' (pyRStripWs l0)).2)).isEmpty &&
      nextIsItem rest) = true) :
    parseEntriesF (fuel + 1) (l0 :: rest) =
      (pyStrip (pySplitFirst ':' (pyRStripWs l0)).1,
       .str (pyUnquote (pyStrip (pySplitFirst ':' (pyRStripWs l0)).2))) ::
        parseEntriesF fuel rest := by
  rw [parseEntriesF, if_neg h1, if_pos h2, if_neg h3, if_neg h4]

theorem lineKey_of_colon (l0 : PyStr) (h2 : (pyRStripWs l0).contains ':' = true) :
    lineKey l0 = some (pyStrip (pySplitFirst ':' (pyRStripWs l0)).1) := by
  unfold lineKey
  rw [if_pos h2]

theorem status_entries (m : PyStr)
    (Hentry : ∀ (fuel : Nat) (rest : List PyStr),
      parseEntriesF (fuel + 1) ((pys "status: " ++ m) :: rest) =
        (pys "status", YamlVal.str m) :: parseEntriesF fuel rest) :
    ∀ (fuel : Nat) (L : List PyStr),
      (∀ l ∈ L, (pys "status:").isPrefixOf l = true → l = pys "status: " ++ m) →
      (∀ l ∈ L, lineKey l = some (pys "status") → (pys "status:").isPrefixOf l = true) →
      ∀ v, dictGet (parseEntriesF fuel L) (pys "status") = some v → v = YamlVal.str m := by
  intro fuel
  induction fuel with
  | zero => intro L _ _ v hv; simp [parseEntriesF, dictGet] at hv
  | succ fuel ih =>
    intro L h1 h2 v hv
    cases L with
    | nil => simp [parseEntriesF, dictGet] at hv
    | cons l0 rest =>
      have h1r : ∀ l ∈ rest, (pys "status:").isPrefixOf l = true → l = pys "status: " ++ m :=
        fun x hx => h1 x (List.mem_cons_of_mem l0 hx)
      have h2r : ∀ l ∈ rest, lineKey l = some (pys "status") →
          (pys "status:").isPrefixOf l = true :=
        fun x hx => h2 x (List.mem_cons_of_mem l0 hx)
      by_cases hpre : (pys "status:").isPrefixOf l0 = true
      · have hl0 : l0 = pys "status: " ++ m := h1 l0 (List.mem_cons_self l0 rest) hpre
        rw [hl0, Hentry fuel rest] at hv
        rcases dictGet_cons_self_val (pys "status") (YamlVal.str m) _ v hv with he | hrest
        · exact he
        · exact ih rest h1r h2r v hrest
      · have hkey : lineKey l0 ≠ some (pys "status") :=
          fun hk => hpre (h2 l0 (List.mem_cons_self l0 rest) hk)
        by_cases c1 : ((pyRStripWs l0).isEmpty || startsWithCh '#' (pyRStripWs l0)) = true
        · rw [parseEntriesF_skip fuel l0 rest c1] at hv
          exact ih rest h1r h2r v hv
        · by_cases c2 : (pyRStripWs l0).contains ':' = true
          · have hkne : pyStrip (pySplitFirst ':' (pyRStripWs l0)).1 ≠ pys "status" := by
              intro he
              exact hkey (by rw [lineKey_of_colon l0 c2, he])
            by_cases c3 : (startsWithCh '['
                (pyUnquote (pyStrip (pySplitFirst ':' (pyRStripWs l0)).2)) &&
                endsWithCh ']' (pyUnquote (pyStrip (pySplitFirst ':' (pyRStripWs l0)).2))) = true
            · rw [parseEntriesF_inline fuel l0 rest c1 c2 c3] at hv
              rw [dictGet_cons_ne _ _ _ _ hkne] at hv
              exact ih rest h1r h2r v hv
            · by_cases c4 : ((pyUnquote (pyStrip (pySplitFirst ':' (pyRStripWs l0)).2)).isEmpty &&
                  nextIsItem rest) = true
              · rw [parseEntriesF_block fuel l0 rest c1 c2 c3 c4] at hv
                rw [dictGet_cons_ne _ _ _ _ hkne] at hv
                exact ih (takeItems rest).2
                  (fun x hx => h1r x (takeItems_snd_subset rest x hx))
                  (fun x hx => h2r x (takeItems_snd_subset rest x hx)) v hv
              · rw [parseEntriesF_plain fuel l0 rest c1 c2 c3 c4] at hv
                rw [dictGet_cons_ne _ _ _ _ hkne] at hv
                exact ih rest h1r h2r v hv
          · rw [parseEntriesF_nocolon fuel l0 rest c1 c2] at hv
            exact ih rest h1r h2r v hv

theorem status_entry_exists (m : PyStr)
    (Hentry : ∀ (fuel : Nat) (rest : List PyStr),
      parseEntriesF (fuel + 1) ((pys "status: " ++ m) :: rest) =
        (pys "status", YamlVal.str m) :: parseEntriesF fuel rest)
    (Hnoitem : startsWithCh '-' (pyStrip (pys "status: " ++ m)) = false) :
    ∀ (fuel : Nat) (L : List PyStr), L.length ≤ fuel →
      (∀ l ∈ L, (pys "status:").isPrefixOf l = true → l = pys "status: " ++ m) →
      (∃ l ∈ L, (pys "status:").isPrefixOf l = true) →
      (dictGet (parseEntriesF fuel L) (pys "status")).isSome = true := by
  intro fuel
  induction fuel with
  | zero =>
    intro L hlen _ hex
    rcases hex with ⟨l, hl, _⟩
    cases L with
    | nil => cases hl
    | cons a as => simp at hlen
  | succ fuel ih =>
    intro L hlen h1 hex
    cases L with
    | nil => rcases hex with ⟨l, hl, _⟩; cases hl
    | cons l0 rest =>
      have h1r : ∀ l ∈ rest, (pys "status:").isPrefixOf l = true → l = pys "status: " ++ m :=
        fun x hx => h1 x (List.mem_cons_of_mem l0 hx)
      have hlenr : rest.length ≤ fuel := by
        simp only [List.length_cons] at hlen; omega
      by_cases hpre : (pys "status:").isPrefixOf l0 = true
      · rw [h1 l0 (List.mem_cons_self l0 rest) hpre, Hentry fuel rest]
        exact dictGet_cons_self_isSome _ _ _
      · have hexr : ∃ l ∈ rest, (pys "status:").isPrefixOf l = true := by
          rcases hex with ⟨l, hl, hp⟩
          rcases List.mem_cons.mp hl with he | ht
          · subst he; exact absurd hp hpre
          · exact ⟨l, ht, hp⟩
        by_cases c1 : ((pyRStripWs l0).isEmpty || startsWithCh '#' (pyRStripWs l0)) = true
        · rw [parseEntriesF_skip fuel l0 rest c1]
          exact ih rest hlenr h1r hexr
        · by_cases c2 : (pyRStripWs l0).contains ':' = true
          · by_cases c3 : (startsWithCh '['
                (pyUnquote (pyStrip (pySplitFirst ':' (pyRStripWs l0)).2)) &&
                endsWithCh ']' (pyUnquote (pyStrip (pySplitFirst ':' (pyRStripWs l0)).2))) = true
            · rw [parseEntriesF_inline fuel l0 rest c1 c2 c3]
              exact dictGet_cons_isSome_of _ _ _ _ (ih rest hlenr h1r hexr)
            · by_cases c4 : ((pyUnquote (pyStrip (pySplitFirst ':' (pyRStripWs l0)).2)).isEmpty &&
                  nextIsItem rest) = true
              · rw [parseEntriesF_block fuel l0 rest c1 c2 c3 c4]
                refine dictGet_cons_isSome_of _ _ _ _ (ih (takeItems rest).2 ?_ ?_ ?_)
                · exact le_trans (takeItems_snd_length rest) hlenr
                · exact fun x hx => h1r x (takeItems_snd_subset rest x hx)
                · rcases hexr with ⟨l, hl, hp⟩
                  have hleq : l = pys "status: " ++ m := h1r l hl hp
                  refine ⟨l, ?_, hp⟩
                  apply takeItems_keeps rest l hl
                  rw [hleq]
                  exact Hnoitem
              · rw [parseEntriesF_plain fuel l0 rest c1 c2 c3 c4]
                exact dictGet_cons_isSome_of _ _ _ _ (ih rest hlenr h1r hexr)
          · rw [parseEntriesF_nocolon fuel l0 rest c1 c2]
            exact ih rest hlenr h1r hexr

theorem reverse_map_cases (bs : PyStr) :
    reverse_map_status bs = pys "Not Started" ∨ reverse_map_status bs = pys "In Progress" ∨
    reverse_map_status bs = pys "Completed" := by
  unfold reverse_map_status
  cases he : dictGet REVERSE_STATUS_MAP bs with
  | none => left; rfl
  | some v =>
    have hm := dictGet_mem REVERSE_STATUS_MAP bs v he
    simp only [REVERSE_STATUS_MAP, List.mem_cons, List.not_mem_nil, or_false,
      Prod.mk.injEq] at hm
    rcases hm with ⟨_, hv⟩ | ⟨_, hv⟩ | ⟨_, hv⟩ | ⟨_, hv⟩ <;> subst hv <;> simp

theorem mapped_facts (bs : PyStr) :
    (∀ (fuel : Nat) (rest : List PyStr),
      parseEntriesF (fuel + 1) ((pys "status: " ++ reverse_map_status bs) :: rest) =
        (pys "status", YamlVal.str (reverse_map_status bs)) :: parseEntriesF fuel rest) ∧
    startsWithCh '-' (pyStrip (pys "status: " ++ reverse_map_status bs)) = false ∧
    pyStrip (pys "status: " ++ reverse_map_status bs) ≠ pys "---" ∧
    '\n' ∉ (pys "status: " ++ reverse_map_status bs) ∧
    (pys "status:").isPrefixOf (pys "status: " ++ reverse_map_status bs) = true := by
  rcases reverse_map_cases bs with h | h | h <;> rw [h] <;>
    exact ⟨fun fuel rest => rfl, by decide, by decide, by decide, by decide⟩

/-- C5: (amended) `reverse_map_status` sends `REVIEW` to `Completed` and
the composite `map_status ∘ reverse_map_status` sends `REVIEW` to
`COMPLETED`, not back to `REVIEW` — the mapping is deliberately lossy and
not round-trippable.  Moreover, after a remote→local status rewrite, a
second remote→local run with the same remote status performs no further
file write, provided the file's line structure is a `---` line, then a
header block containing at least one line starting with `status:` and no
line whose trimmed form is `---`, in which every line whose parsed key is
`status` starts with `status:` at the start of the line, then a closing
`---` line — because the rewrite leaves the parsed status equal to the
mapped status, and the rewrite is skipped whenever the local status
already equals the mapped status. -/
theorem thm_C5_lossy_review :
    reverse_map_status (pys "REVIEW") = pys "Completed" ∧
    map_status (reverse_map_status (pys "REVIEW")) = pys "COMPLETED" ∧
    pys "COMPLETED" ≠ pys "REVIEW" ∧
    ∀ (c bs c' : PyStr) (mid rest : List PyStr),
      pySplitCh '\n' c = pys "---" :: (mid ++ pys "---" :: rest) →
      (∀ l ∈ mid, pyStrip l ≠ pys "---") →
      (∃ l ∈ mid, (pys "status:").isPrefixOf l = true) →
      (∀ l ∈ mid, lineKey l = some (pys "status") → (pys "status:").isPrefixOf l = true) →
      update_local_status_file c bs = some c' →
      update_local_status_file c' bs = none := by
  refine ⟨by decide, by decide, by decide, ?_⟩
  intro c bs c' mid rest hsplit hmid hex hkey hrun
  obtain ⟨Hentry, Hnoitem, Hnodelim, Hnonl, Hpre⟩ := mapped_facts bs
  have hc' : c' = rwStatusContent c (reverse_map_status bs) := by
    unfold update_local_status_file at hrun
    by_cases hcond : ((dictGet (parse_yaml_front_matter c).1 (pys "status")).getD
        (.str [])) ≠ YamlVal.str (reverse_map_status bs)
    · rw [if_pos hcond] at hrun
      exact (Option.some.inj hrun).symm
    · rw [if_neg hcond] at hrun
      cases hrun
  have hrw : rwStatusLines (reverse_map_status bs) false (pySplitCh '\n' c) =
      pys "---" :: (mid.map (rwLineSubst (reverse_map_status bs)) ++
        pys "---" :: rwStatusLines (reverse_map_status bs) false rest) := by
    rw [hsplit]
    exact rwStatusLines_shape (reverse_map_status bs) mid rest hmid
  have hmemc : ∀ l ∈ pySplitCh '\n' c, '\n' ∉ l := fun l hl => pySplitCh_pieces '\n' c l hl
  have hsplit' : pySplitCh '\n' c' =
      pys "---" :: (mid.map (rwLineSubst (reverse_map_status bs)) ++
        pys "---" :: rwStatusLines (reverse_map_status bs) false rest) := by
    rw [hc']
    unfold rwStatusContent
    rw [hrw]
    apply pySplitCh_pyJoinCh
    · simp
    · intro g hg
      rcases List.mem_cons.mp hg with he | ht
      · subst he; decide
      · rcases List.mem_append.mp ht with hmap | htl
        · rcases List.mem_map.mp hmap with ⟨l0, hl0, rfl⟩
          unfold rwLineSubst
          by_cases hs : (pys "status:").isPrefixOf l0 = true
          · rw [if_pos hs]; exact Hnonl
          · rw [if_neg hs]
            apply hmemc
            rw [hsplit]
            exact List.mem_cons_of_mem _ (List.mem_append.mpr (Or.inl hl0))
        · rcases List.mem_cons.mp htl with he2 | ht2
          · subst he2; decide
          · rcases rwStatusLines_mem (reverse_map_status bs) false rest g ht2 with h1 | h2
            · apply hmemc
              rw [hsplit]
              exact List.mem_cons_of_mem _
                (List.mem_append.mpr (Or.inr (List.mem_cons_of_mem _ h1)))
            · rw [h2]; exact Hnonl
  have hmid' : ∀ l ∈ mid.map (rwLineSubst (reverse_map_status bs)),
      pyStrip l ≠ pys "---" := by
    intro l hl
    rcases List.mem_map.mp hl with ⟨l0, hl0, rfl⟩
    unfold rwLineSubst
    by_cases hs : (pys "status:").isPrefixOf l0 = true
    · rw [if_pos hs]; exact Hnodelim
    · rw [if_neg hs]; exact hmid l0 hl0
  have hparse' : parse_yaml_front_matter c' =
      (parseEntries (mid.map (rwLineSubst (reverse_map_status bs))),
       pyJoinCh '\n' (rwStatusLines (reverse_map_status bs) false rest)) :=
    parse_shape c' _ _ hsplit' hmid'
  have h1' : ∀ l ∈ mid.map (rwLineSubst (reverse_map_status bs)),
      (pys "status:").isPrefixOf l = true → l = pys "status: " ++ reverse_map_status bs := by
    intro l hl hstarts
    rcases List.mem_map.mp hl with ⟨l0, hl0, rfl⟩
    unfold rwLineSubst at hstarts ⊢
    by_cases hs : (pys "status:").isPrefixOf l0 = true
    · rw [if_pos hs]
    · rw [if_neg hs] at hstarts
      exact absurd hstarts hs
  have h2' : ∀ l ∈ mid.map (rwLineSubst (reverse_map_status bs)),
      lineKey l = some (pys "status") → (pys "status:").isPrefixOf l = true := by
    intro l hl hk
    rcases List.mem_map.mp hl with ⟨l0, hl0, rfl⟩
    unfold rwLineSubst at hk ⊢
    by_cases hs : (pys "status:").isPrefixOf l0 = true
    · rw [if_pos hs]; exact Hpre
    · rw [if_neg hs] at hk ⊢
      exact hkey l0 hl0 hk
  have hex' : ∃ l ∈ mid.map (rwLineSubst (reverse_map_status bs)),
      (pys "status:").isPrefixOf l = true := by
    rcases hex with ⟨l0, hl0, hs⟩
    refine ⟨rwLineSubst (reverse_map_status bs) l0, List.mem_map_of_mem _ hl0, ?_⟩
    unfold rwLineSubst
    rw [if_pos hs]
    exact Hpre
  have hsome := status_entry_exists (reverse_map_status bs) Hentry Hnoitem
    (mid.map (rwLineSubst (reverse_map_status bs))).length
    (mid.map (rwLineSubst (reverse_map_status bs))) le_rfl h1' hex'
  have hval : dictGet (parseEntries (mid.map (rwLineSubst (reverse_map_status bs))))
      (pys "status") = some (YamlVal.str (reverse_map_status bs)) := by
    unfold parseEntries at hsome ⊢
    cases ho : dictGet (parseEntriesF (mid.map (rwLineSubst (reverse_map_status bs))).length
        (mid.map (rwLineSubst (reverse_map_status bs)))) (pys "status") with
    | none => rw [ho] at hsome; simp at hsome
    | some v =>
      have hv := status_entries (reverse_map_status bs) Hentry
        (mid.map (rwLineSubst (reverse_map_status bs))).length
        (mid.map (rwLineSubst (reverse_map_status bs))) h1' h2' v ho
      rw [hv]
  unfold update_local_status_file
  rw [hparse']
  simp [hval]

/-- C5 witness: a well-formed file whose header has a `status:` line —
the first run with remote status `REVIEW` rewrites it to `Completed`, and
a second run on the rewritten file performs no write. -/
theorem wit_C5_lossy_review :
    update_local_status_file (pys "---\nstatus: Not Started\n---\nbody") (pys "REVIEW") =
      some (pys "---\nstatus: Completed\n---\nbody") ∧
    update_local_status_file (pys "---\nstatus: Completed\n---\nbody") (pys "REVIEW") =
      none :=
  ⟨by decide,
   thm_C5_lossy_review.2.2.2 (pys "---\nstatus: Not Started\n---\nbody") (pys "REVIEW")
     (pys "---\nstatus: Completed\n---\nbody") [pys "status: Not Started"] [pys "body"]
     (by decide) (by decide) (by decide) (by decide) (by decide)⟩

/-- C5: counterexample to the claim as stated — a file whose header block
carries no `status:` line is written back (unchanged) on every run: after
the first remote→local rewrite, a second run with the same remote status
still performs a file write, because the parsed local status (absent, read
as the empty string) still differs from the mapped status. -/
theorem cex_C5_lossy_review :
    update_local_status_file (pys "---\ntitle: X\n---\n") (pys "REVIEW") =
      some (pys "---\ntitle: X\n---\n") ∧
    update_local_status_file (pys "---\ntitle: X\n---\n") (pys "REVIEW") ≠ none := by
  decide
